import Mathlib

/-!
# Clearshot: alpha reconstruction and the dual-exposure capture sequence

A shallow embedding of `ProcessAlpha` and of the shield window procedure
`ShieldWndProc` from `clearshot.c`, together with the properties of the
specification that concern them.

Conventions of the embedding:

* C `int` values are `Int`; every intermediate value of `ProcessAlpha` lies
  between `-65025` and `65025`, far inside the range of a 32-bit `int`.
* C `/` on `int` truncates towards zero (`Int.tdiv`) and is undefined for a
  zero divisor; a division by a variable is therefore modelled as fallible.
* `uint8_t` buffers are `List Nat`; a read outside the buffer and a write
  outside the buffer are failures (`none`).
* `size_t` is an unsigned integer of `w` bits, so `i += 4` is taken modulo
  `2 ^ w`.
-/

namespace Clearshot

/-! ## Integer helpers -/

/-- C division of two `int`s by a divisor that is not a literal: truncation
towards zero, and a fault when the divisor is zero. -/
def cdiv (x y : Int) : Option Int :=
  if y = 0 then none else some (Int.tdiv x y)

/-- The conditional expression `x < 0 ? 0 : x > 255 ? 255 : x`. -/
def clamp (x : Int) : Int :=
  if x < 0 then 0 else if x > 255 then 255 else x

/-- Conversion of an `int` to `uint8_t` when it is assigned to a buffer
element: reduction modulo 256. -/
def toByte (x : Int) : Nat :=
  (x % 256).toNat

/-! ## The body of the loop of `ProcessAlpha` -/

/-- The four `int` values that one iteration assigns to `buffer[i]`,
`buffer[i + 1]`, `buffer[i + 2]` and `buffer[i + 3]`, before their conversion
to `uint8_t`. -/
structure Stores where
  /-- Value assigned to `buffer[i]`. -/
  s0 : Int
  /-- Value assigned to `buffer[i + 1]`. -/
  s1 : Int
  /-- Value assigned to `buffer[i + 2]`. -/
  s2 : Int
  /-- Value assigned to `buffer[i + 3]`. -/
  s3 : Int
deriving DecidableEq, Repr

/-- The value of `a` right after line 182-184:
`((blackBuffer[i] - b + 255) + (blackBuffer[i + 1] - g + 255) +
(blackBuffer[i + 2] - r + 255)) / 3`. -/
def alphaEstimate (b g r k0 k1 k2 : Int) : Int :=
  Int.tdiv ((k0 - b + 255) + (k1 - g + 255) + (k2 - r + 255)) 3

/-- The arithmetic of one iteration of the loop (lines 179-201), as a function
of the three bytes read from `buffer` (`b0 = buffer[i]`, `b1 = buffer[i + 1]`,
`b2 = buffer[i + 2]`) and the three bytes read from `blackBuffer`. -/
def ProcessAlpha.body (b0 b1 b2 k0 k1 k2 : Nat) : Option Stores :=
  let b : Int := b0
  let g : Int := b1
  let r : Int := b2
  let a : Int := alphaEstimate b g r k0 k1 k2
  if a ≠ 0 then
    let a : Int := if a > 255 then 255 else a
    (cdiv ((b + a - 255) * 255) a).bind fun b =>
    (cdiv ((g + a - 255) * 255) a).bind fun g =>
    (cdiv ((r + a - 255) * 255) a).bind fun r =>
    some ⟨clamp r, clamp g, clamp b, a⟩
  else
    some ⟨0, 0, 0, 0⟩

/-! ## The buffers and the loop -/

/-- Assignment `buffer[i] = x` of an `int` to a `uint8_t` element; a fault
when `i` is outside the buffer. -/
def store (buffer : List Nat) (i : Nat) (x : Int) : Option (List Nat) :=
  if i < buffer.length then some (buffer.set i (toByte x)) else none

/-- One iteration of the loop at index `i`: the six reads, the arithmetic and
the four byte stores (the `uint32_t` store of the `else` branch writes the same
four bytes `i .. i + 3`). -/
def ProcessAlpha.iter (buffer blackBuffer : List Nat) (i : Nat) :
    Option (List Nat) :=
  buffer[i]?.bind fun b0 =>
  buffer[i + 1]?.bind fun b1 =>
  buffer[i + 2]?.bind fun b2 =>
  blackBuffer[i]?.bind fun k0 =>
  blackBuffer[i + 1]?.bind fun k1 =>
  blackBuffer[i + 2]?.bind fun k2 =>
  (ProcessAlpha.body b0 b1 b2 k0 k1 k2).bind fun s =>
  (store buffer i s.s0).bind fun buffer =>
  (store buffer (i + 1) s.s1).bind fun buffer =>
  (store buffer (i + 2) s.s2).bind fun buffer =>
  store buffer (i + 3) s.s3

/-- The loop `for (size_t i = 0; i < size; i += 4)`, started at index `i` with
`n` iterations already done. `w` is the width of `size_t` in bits. The result
is the final buffer and the number of iterations; `none` is a fault of an
iteration or exhausted fuel. -/
def ProcessAlpha.loop (w : Nat) (blackBuffer : List Nat) (size : Nat) :
    Nat → Nat → List Nat → Nat → Option (List Nat × Nat)
  | 0, i, buffer, n => if i < size then none else some (buffer, n)
  | fuel + 1, i, buffer, n =>
    if i < size then
      (ProcessAlpha.iter buffer blackBuffer i).bind fun buffer =>
      ProcessAlpha.loop w blackBuffer size fuel ((i + 4) % 2 ^ w) buffer (n + 1)
    else some (buffer, n)

/-- The function `ProcessAlpha(buffer, blackBuffer, size)`: the contents of
`buffer` on return. -/
def ProcessAlpha (w fuel : Nat) (buffer blackBuffer : List Nat) (size : Nat) :
    Option (List Nat) :=
  (ProcessAlpha.loop w blackBuffer size fuel 0 buffer 0).map Prod.fst

/-! ## Named sub-expressions of the loop body -/

/-- The value of `a` after line 188, `a = a > 255 ? 255 : a`. -/
def alphaClamped (b g r k0 k1 k2 : Int) : Int :=
  if alphaEstimate b g r k0 k1 k2 > 255 then 255 else alphaEstimate b g r k0 k1 k2

/-- The value stored for one colour channel `c` (lines 189-195):
`(c + a - 255) * 255 / a`, then the clamping conditional. -/
def colour (c a : Int) : Int :=
  clamp (Int.tdiv ((c + a - 255) * 255) a)

/-! ## Whole-buffer view used to describe the result of the loop -/

/-- The bytes the loop leaves in a region of `buffer` made of whole pixels:
pixel by pixel, the converted stores of `ProcessAlpha.body`. -/
def outPixels : List Nat → List Nat → List Nat
  | b0 :: b1 :: b2 :: _ :: rest, k0 :: k1 :: k2 :: _ :: krest =>
    match ProcessAlpha.body b0 b1 b2 k0 k1 k2 with
    | some s =>
      toByte s.s0 :: toByte s.s1 :: toByte s.s2 :: toByte s.s3 :: outPixels rest krest
    | none => []
  | _, _ => []

/-- Pixel `p` of `out` is what one iteration computes from pixel `p` of
`buffer` and pixel `p` of `blackBuffer`: the six input bytes exist at indices
`4 * p .. 4 * p + 2`, the body succeeds on them, and `out` holds the four
converted stores at indices `4 * p .. 4 * p + 3`. -/
def PixelReconstructed (buffer blackBuffer out : List Nat) (p : Nat) : Prop :=
  ∃ b0 b1 b2 k0 k1 k2 s,
    buffer[4 * p]? = some b0 ∧ buffer[4 * p + 1]? = some b1 ∧
    buffer[4 * p + 2]? = some b2 ∧
    blackBuffer[4 * p]? = some k0 ∧ blackBuffer[4 * p + 1]? = some k1 ∧
    blackBuffer[4 * p + 2]? = some k2 ∧
    ProcessAlpha.body b0 b1 b2 k0 k1 k2 = some s ∧
    out[4 * p]? = some (toByte s.s0) ∧ out[4 * p + 1]? = some (toByte s.s1) ∧
    out[4 * p + 2]? = some (toByte s.s2) ∧ out[4 * p + 3]? = some (toByte s.s3)

/-! ## Synthetic observations for the round trip (specification, section 8)

These two definitions follow the words of the specification, not the source:
they build the test input of the round-trip property. -/

/-- Source-over compositing of one channel `c` with alpha `a` over a background
channel `bg`, all in `0 .. 255`: `c * a / 255 + bg * (255 - a) / 255`, brought
to a byte by adding `rnd` before the division by 255 (`rnd = 127` rounds to
nearest, `rnd = 0` rounds down, `rnd = 254` rounds up). -/
def sourceOver (rnd bg c a : Nat) : Nat :=
  (c * a + bg * (255 - a) + rnd) / 255

/-- The round-trip property as the specification words it, at one source
colour `(R, G, B)` and alpha `A`: the loop body, run on the composites over
white and over black, gives an alpha within 1 of `A` and, when `A > 0`, each
colour channel within 1 of the source channel. -/
def RoundTripWithinOne (rnd R G B A : Nat) : Prop :=
  ∃ s, ProcessAlpha.body (sourceOver rnd 255 B A) (sourceOver rnd 255 G A)
      (sourceOver rnd 255 R A) (sourceOver rnd 0 B A) (sourceOver rnd 0 G A)
      (sourceOver rnd 0 R A) = some s ∧
    |s.s3 - (A : Int)| ≤ 1 ∧
    (0 < A → |s.s0 - (R : Int)| ≤ 1 ∧ |s.s1 - (G : Int)| ≤ 1 ∧ |s.s2 - (B : Int)| ≤ 1)

/-! ## The shield window procedure

`ShieldWndProc` is embedded as the sequence of external calls each message
handler makes, in source order. The handlers of `WM_TIMER` and `WM_DESTROY`
are straight-line code; the handler of `WM_CREATE` branches once, on whether
the four drawing resources were created. -/

/-- The stock brushes used as the background of the shield window. -/
inductive Brush
  | WHITE_BRUSH
  | BLACK_BRUSH
deriving DecidableEq

/-- The two bitmaps held in the static variables `white` and `black`. -/
inductive Bitmap
  | white
  | black
deriving DecidableEq

/-- The two memory device contexts held in `whiteCtx` and `blackCtx`. -/
inductive Context
  | whiteCtx
  | blackCtx
deriving DecidableEq

/-- The external calls made by `ShieldWndProc`, with the arguments that tell
them apart. -/
inductive Call
  | GetDC
  | CreateCompatibleDC (ctx : Context)
  | CreateCompatibleBitmap (bitmap : Bitmap)
  | ReleaseDC
  | SetTimer
  | KillTimer
  | DwmFlush
  | SelectObject (ctx : Context) (bitmap : Bitmap)
  | BitBlt (ctx : Context)
  | SetClassLongPtr (brush : Brush)
  | InvalidateRect
  | UpdateWindow
  | DestroyWindow
  | xmalloc
  | GetBits (bitmap : Bitmap) (ctx : Context)
  | DeleteDC (ctx : Context)
  | DeleteObject (bitmap : Bitmap)
  | ProcessAlpha
  | free
  | PostQuitMessage
  | DefWindowProc
deriving DecidableEq

/-- The messages `ShieldWndProc` distinguishes. -/
inductive Message
  | WM_CREATE
  | WM_TIMER
  | WM_DESTROY
  | other
deriving DecidableEq

/-- The field `.hbrBackground` of the window class registered by
`RegisterShieldClass`: the shield window is created with a white background. -/
def RegisterShieldClass.hbrBackground : Brush :=
  Brush.WHITE_BRUSH

/-- The window procedure: the calls made while handling a message and the
returned value (`none` stands for whatever `DefWindowProc` returns). `created`
says whether `whiteCtx`, `white`, `blackCtx` and `black` were all created. -/
def ShieldWndProc (created : Bool) : Message → List Call × Option Int
  | .WM_CREATE =>
    let calls := [Call.GetDC, .CreateCompatibleDC .whiteCtx, .CreateCompatibleBitmap .white,
      .CreateCompatibleDC .blackCtx, .CreateCompatibleBitmap .black, .ReleaseDC]
    if !created then (calls, some (-1)) else (calls ++ [Call.SetTimer], some 0)
  | .WM_TIMER =>
    ([Call.GetDC, .KillTimer, .DwmFlush,
      .SelectObject .whiteCtx .white, .BitBlt .whiteCtx,
      .SetClassLongPtr .BLACK_BRUSH, .InvalidateRect, .UpdateWindow, .DwmFlush,
      .SelectObject .blackCtx .black, .BitBlt .blackCtx,
      .ReleaseDC, .DestroyWindow], some 0)
  | .WM_DESTROY =>
    ([Call.xmalloc, .GetBits .white .whiteCtx, .DeleteDC .whiteCtx, .DeleteObject .white,
      .GetBits .black .blackCtx, .DeleteDC .blackCtx, .DeleteObject .black,
      .ProcessAlpha, .free, .PostQuitMessage], some 0)
  | .other => ([Call.DefWindowProc], none)

/-- The collaborator actions of the specification (section 6): compositor
flush, pixel capture into a bitmap, background change with forced redraw, and
destruction of the surface. -/
inductive Action
  | flush
  | capture (target : Option Bitmap)
  | setBackgroundAndRedraw (brush : Brush)
  | destroySurface
deriving DecidableEq

/-- What the calls have made of the shield window and of the two device
contexts: the class background brush, whether the window has been invalidated
since it was last painted, and the bitmap selected into each context. -/
structure Surface where
  /-- Class background brush. -/
  background : Brush
  /-- Invalidated and not yet repainted. -/
  invalidated : Bool
  /-- Bitmap selected into `whiteCtx`. -/
  whiteCtx : Option Bitmap
  /-- Bitmap selected into `blackCtx`. -/
  blackCtx : Option Bitmap
deriving DecidableEq

/-- The bitmap selected into a device context. -/
def Surface.selected (s : Surface) : Context → Option Bitmap
  | .whiteCtx => s.whiteCtx
  | .blackCtx => s.blackCtx

/-- The shield window as `CreateWindowExW` leaves it: class background from
`RegisterShieldClass`, nothing selected into the contexts. -/
def Surface.initial : Surface :=
  ⟨RegisterShieldClass.hbrBackground, false, none, none⟩

/-- The collaborator actions a sequence of calls amounts to. `DwmFlush` is a
flush; `BitBlt` into a context is a capture into the bitmap selected there;
`UpdateWindow` on an invalidated window repaints it with the current class
background; `DestroyWindow` destroys the surface; the other calls are not
collaborator actions. -/
def collaboratorTrace : Surface → List Call → List Action
  | _, [] => []
  | s, .DwmFlush :: t => Action.flush :: collaboratorTrace s t
  | s, .SelectObject .whiteCtx b :: t =>
    collaboratorTrace ⟨s.background, s.invalidated, some b, s.blackCtx⟩ t
  | s, .SelectObject .blackCtx b :: t =>
    collaboratorTrace ⟨s.background, s.invalidated, s.whiteCtx, some b⟩ t
  | s, .BitBlt ctx :: t => Action.capture (s.selected ctx) :: collaboratorTrace s t
  | s, .SetClassLongPtr brush :: t =>
    collaboratorTrace ⟨brush, s.invalidated, s.whiteCtx, s.blackCtx⟩ t
  | s, .InvalidateRect :: t =>
    collaboratorTrace ⟨s.background, true, s.whiteCtx, s.blackCtx⟩ t
  | s, .UpdateWindow :: t =>
    if s.invalidated then
      Action.setBackgroundAndRedraw s.background ::
        collaboratorTrace ⟨s.background, false, s.whiteCtx, s.blackCtx⟩ t
    else collaboratorTrace s t
  | s, .DestroyWindow :: t => Action.destroySurface :: collaboratorTrace s t
  | s, _ :: t => collaboratorTrace s t

/-- Every capture of the trace comes after a flush with no background change in
between. The flag says whether the compositor has been flushed since the
background was last set. -/
def flushedBeforeCapture : Bool → List Action → Bool
  | _, [] => true
  | _, .flush :: t => flushedBeforeCapture true t
  | _, .setBackgroundAndRedraw _ :: t => flushedBeforeCapture false t
  | settled, .capture _ :: t => settled && flushedBeforeCapture settled t
  | settled, .destroySurface :: t => flushedBeforeCapture settled t

/-- Calls of a handler with the nested handler of `WM_DESTROY` spliced in:
`DestroyWindow` sends `WM_DESTROY` to the window procedure before it
returns. -/
def dispatch : List Call → List Call
  | [] => []
  | .DestroyWindow :: t =>
    Call.DestroyWindow :: ((ShieldWndProc true .WM_DESTROY).1 ++ dispatch t)
  | c :: t => c :: dispatch t

/-- All calls of one capture session in which the resources were created:
`CreateWindowExW` sends `WM_CREATE`, whose timer then delivers `WM_TIMER` from
the message loop of `ShootArea`. -/
def session : List Call :=
  (ShieldWndProc true .WM_CREATE).1 ++ dispatch (ShieldWndProc true .WM_TIMER).1

/-! ## Lemmas on the helpers -/

theorem clamp_range (x : Int) : 0 ≤ clamp x ∧ clamp x ≤ 255 := by
  unfold clamp; split_ifs <;> omega

theorem clamp_of_nonneg (x : Int) (h : 0 ≤ x) : clamp x = min 255 x := by
  unfold clamp; split_ifs <;> omega

theorem toByte_of_range (x : Int) (h0 : 0 ≤ x) (h1 : x ≤ 255) : (toByte x : Int) = x := by
  unfold toByte; omega

theorem toByte_natCast (n : Nat) (h : n ≤ 255) : toByte (n : Int) = n := by
  unfold toByte; omega

/-! ## Lemmas on the loop body -/

/-- The body never faults: the divisor of the three divisions is not zero. -/
theorem body_isSome (b0 b1 b2 k0 k1 k2 : Nat) :
    ∃ s, ProcessAlpha.body b0 b1 b2 k0 k1 k2 = some s := by
  unfold ProcessAlpha.body
  by_cases h : alphaEstimate b0 b1 b2 k0 k1 k2 = 0
  · simp [h]
  · have h2 : (if alphaEstimate b0 b1 b2 k0 k1 k2 > 255 then (255 : Int)
        else alphaEstimate b0 b1 b2 k0 k1 k2) ≠ 0 := by
      split <;> omega
    simp [h, cdiv, h2]

/-- The body in closed form. -/
theorem body_eq (b0 b1 b2 k0 k1 k2 : Nat) :
    ProcessAlpha.body b0 b1 b2 k0 k1 k2 =
      if alphaEstimate b0 b1 b2 k0 k1 k2 = 0 then some ⟨0, 0, 0, 0⟩
      else some ⟨colour b2 (alphaClamped b0 b1 b2 k0 k1 k2),
                 colour b1 (alphaClamped b0 b1 b2 k0 k1 k2),
                 colour b0 (alphaClamped b0 b1 b2 k0 k1 k2),
                 alphaClamped b0 b1 b2 k0 k1 k2⟩ := by
  unfold ProcessAlpha.body
  by_cases h : alphaEstimate b0 b1 b2 k0 k1 k2 = 0
  · simp [h]
  · have h2 : alphaClamped b0 b1 b2 k0 k1 k2 ≠ 0 := by
      unfold alphaClamped; split <;> omega
    unfold alphaClamped at h2
    simp [h, cdiv, h2, colour, alphaClamped]

/-- On bytes read from the light buffer the sum is not negative, so the
truncating division by 3 is the floor division. -/
theorem alphaEstimate_eq (b0 b1 b2 k0 k1 k2 : Nat)
    (h0 : b0 ≤ 255) (h1 : b1 ≤ 255) (h2 : b2 ≤ 255) :
    alphaEstimate b0 b1 b2 k0 k1 k2 =
      (((k0 : Int) - b0 + 255) + ((k1 : Int) - b1 + 255) + ((k2 : Int) - b2 + 255)) / 3 := by
  unfold alphaEstimate
  apply Int.tdiv_eq_ediv <;> omega

theorem alphaClamped_range (b0 b1 b2 k0 k1 k2 : Nat)
    (h0 : b0 ≤ 255) (h1 : b1 ≤ 255) (h2 : b2 ≤ 255) :
    0 ≤ alphaClamped b0 b1 b2 k0 k1 k2 ∧ alphaClamped b0 b1 b2 k0 k1 k2 ≤ 255 := by
  unfold alphaClamped
  rw [alphaEstimate_eq _ _ _ _ _ _ h0 h1 h2]
  split_ifs <;> omega

theorem body_same (b g r : Nat) (hb : b ≤ 255) (hg : g ≤ 255) (hr : r ≤ 255) :
    ProcessAlpha.body b g r b g r = some ⟨r, g, b, 255⟩ := by
  have he : alphaEstimate b g r b g r = 255 := by
    rw [alphaEstimate_eq _ _ _ _ _ _ hb hg hr]; omega
  have hc : ∀ c : Nat, c ≤ 255 → colour c 255 = c := by
    intro c hc
    unfold colour
    have : ((c : Int) + 255 - 255) * 255 = c * 255 := by ring
    rw [this, Int.mul_tdiv_cancel _ (by decide), clamp_of_nonneg _ (by omega)]
    omega
  rw [body_eq]
  simp [he, alphaClamped, hc b hb, hc g hg, hc r hr]

/-! ## Lemmas on the iteration and the loop -/

theorem store_append (done rest : List Nat) (j : Nat) (x : Int) (hj : j < rest.length) :
    store (done ++ rest) (done.length + j) x = some (done ++ rest.set j (toByte x)) := by
  unfold store
  have : done.length + j < (done ++ rest).length := by simp; omega
  rw [if_pos this, List.set_append_right _ _ (by omega)]
  simp

/-- One iteration at the pixel that starts right after `done`: all six reads
and all four stores are inside the buffers, and only that pixel changes. -/
theorem iter_append (done kdone rest krest : List Nat) (b0 b1 b2 b3 k0 k1 k2 : Nat)
    (h : kdone.length = done.length) :
    ProcessAlpha.iter (done ++ b0 :: b1 :: b2 :: b3 :: rest)
        (kdone ++ k0 :: k1 :: k2 :: krest) done.length =
      (ProcessAlpha.body b0 b1 b2 k0 k1 k2).map fun s =>
        done ++ toByte s.s0 :: toByte s.s1 :: toByte s.s2 :: toByte s.s3 :: rest := by
  unfold ProcessAlpha.iter
  have r0 : (done ++ b0 :: b1 :: b2 :: b3 :: rest)[done.length]? = some b0 := by
    rw [List.getElem?_append_right (by omega)]; simp
  have r1 : (done ++ b0 :: b1 :: b2 :: b3 :: rest)[done.length + 1]? = some b1 := by
    rw [List.getElem?_append_right (by omega)]; simp
  have r2 : (done ++ b0 :: b1 :: b2 :: b3 :: rest)[done.length + 2]? = some b2 := by
    rw [List.getElem?_append_right (by omega)]; simp
  have q0 : (kdone ++ k0 :: k1 :: k2 :: krest)[done.length]? = some k0 := by
    rw [List.getElem?_append_right (by omega)]; simp [h]
  have q1 : (kdone ++ k0 :: k1 :: k2 :: krest)[done.length + 1]? = some k1 := by
    rw [List.getElem?_append_right (by omega)]; simp [h]
  have q2 : (kdone ++ k0 :: k1 :: k2 :: krest)[done.length + 2]? = some k2 := by
    rw [List.getElem?_append_right (by omega)]; simp [h]
  rw [r0, r1, r2, q0, q1, q2]
  simp only [Option.some_bind]
  cases hb : ProcessAlpha.body b0 b1 b2 k0 k1 k2 with
  | none => simp
  | some s =>
    have w0 := store_append done (b0 :: b1 :: b2 :: b3 :: rest) 0 s.s0 (by simp)
    have w1 := store_append done (toByte s.s0 :: b1 :: b2 :: b3 :: rest) 1 s.s1 (by simp)
    have w2 := store_append done (toByte s.s0 :: toByte s.s1 :: b2 :: b3 :: rest) 2 s.s2
      (by simp)
    have w3 := store_append done (toByte s.s0 :: toByte s.s1 :: toByte s.s2 :: b3 :: rest) 3
      s.s3 (by simp)
    simp only [Nat.add_zero, List.set_cons_zero, List.set_cons_succ] at w0 w1 w2 w3
    simp only [Option.some_bind, Option.map_some', w0, w1, w2, w3]

theorem iter_pixel (b0 b1 b2 x k0 k1 k2 y : Nat) :
    ProcessAlpha.iter [b0, b1, b2, x] [k0, k1, k2, y] 0 =
      (ProcessAlpha.body b0 b1 b2 k0 k1 k2).map fun s =>
        [toByte s.s0, toByte s.s1, toByte s.s2, toByte s.s3] := by
  simpa using iter_append [] [] [] [y] b0 b1 b2 x k0 k1 k2 rfl

theorem four_chunk {α : Type} (k : Nat) (l : List α) (h : l.length = 4 * (k + 1)) :
    ∃ a b c d t, l = a :: b :: c :: d :: t ∧ t.length = 4 * k := by
  match l, h with
  | a :: b :: c :: d :: t, h => exact ⟨a, b, c, d, t, rfl, by simp at h; omega⟩

/-- The loop invariant: with `done` already processed and `k` whole pixels
left, the loop runs `k` more iterations without a fault and leaves `done`
followed by the processed pixels. -/
theorem loop_append (w size : Nat) (hsize : size < 2 ^ w) :
    ∀ (k : Nat) (done kdone rest krest : List Nat) (fuel n : Nat),
      kdone.length = done.length → rest.length = 4 * k → krest.length = 4 * k →
      done.length + 4 * k = size → k ≤ fuel →
      ProcessAlpha.loop w (kdone ++ krest) size fuel done.length (done ++ rest) n =
        some (done ++ outPixels rest krest, n + k) := by
  intro k
  induction k with
  | zero =>
    intro done kdone rest krest fuel n hk hr hkr hs hf
    have hr0 : rest = [] := List.length_eq_zero.mp (by omega)
    have hkr0 : krest = [] := List.length_eq_zero.mp (by omega)
    subst hr0 hkr0
    have : ¬ done.length < size := by omega
    cases fuel <;> simp [ProcessAlpha.loop, this, outPixels]
  | succ k ih =>
    intro done kdone rest krest fuel n hk hr hkr hs hf
    obtain ⟨b0, b1, b2, b3, rest', rfl, hr'⟩ := four_chunk k rest hr
    obtain ⟨k0, k1, k2, k3, krest', rfl, hkr'⟩ := four_chunk k krest hkr
    obtain ⟨s, hs'⟩ := body_isSome b0 b1 b2 k0 k1 k2
    cases fuel with
    | zero => omega
    | succ fuel =>
      have hlt : done.length < size := by omega
      have hmod : (done.length + 4) % 2 ^ w = done.length + 4 :=
        Nat.mod_eq_of_lt (by omega)
      have hi := iter_append done kdone rest' (k3 :: krest') b0 b1 b2 b3 k0 k1 k2 hk
      rw [hs'] at hi
      have step := ih (done ++ [toByte s.s0, toByte s.s1, toByte s.s2, toByte s.s3])
        (kdone ++ [k0, k1, k2, k3]) rest' krest' fuel (n + 1)
        (by simp [hk]) hr' hkr' (by simp; omega) (by omega)
      simp only [List.append_assoc, List.cons_append, List.nil_append, List.length_append,
        List.length_cons, List.length_nil] at step
      simp only [ProcessAlpha.loop, if_pos hlt, hi, Option.map_some', Option.some_bind, hmod]
      rw [step]
      simp [outPixels, hs']
      omega

/-- The loop on two buffers of `k` whole pixels each. -/
theorem loop_whole (w k fuel : Nat) (buffer blackBuffer : List Nat)
    (hb : buffer.length = 4 * k) (hk : blackBuffer.length = 4 * k)
    (hsize : 4 * k < 2 ^ w) (hfuel : k ≤ fuel) :
    ProcessAlpha.loop w blackBuffer (4 * k) fuel 0 buffer 0 =
      some (outPixels buffer blackBuffer, k) := by
  simpa using loop_append w (4 * k) hsize k [] [] buffer blackBuffer fuel 0 rfl hb hk
    (by simp) hfuel

theorem outPixels_length :
    ∀ (k : Nat) (l kl : List Nat), l.length = 4 * k → kl.length = 4 * k →
      (outPixels l kl).length = 4 * k := by
  intro k
  induction k with
  | zero =>
    intro l kl hl hkl
    have : l = [] := List.length_eq_zero.mp (by omega)
    subst this
    simp [outPixels]
  | succ k ih =>
    intro l kl hl hkl
    obtain ⟨b0, b1, b2, b3, rest, rfl, hr⟩ := four_chunk k l hl
    obtain ⟨k0, k1, k2, k3, krest, rfl, hkr⟩ := four_chunk k kl hkl
    obtain ⟨s, hs⟩ := body_isSome b0 b1 b2 k0 k1 k2
    simp [outPixels, hs, ih rest krest hr hkr]
    omega

theorem outPixels_pixel :
    ∀ (p k : Nat) (l kl : List Nat), l.length = 4 * k → kl.length = 4 * k → p < k →
      PixelReconstructed l kl (outPixels l kl) p := by
  intro p
  induction p with
  | zero =>
    intro k l kl hl hkl hp
    obtain ⟨k, rfl⟩ : ∃ j, k = j + 1 := ⟨k - 1, by omega⟩
    obtain ⟨b0, b1, b2, b3, rest, rfl, hr⟩ := four_chunk k l hl
    obtain ⟨k0, k1, k2, k3, krest, rfl, hkr⟩ := four_chunk k kl hkl
    obtain ⟨s, hs⟩ := body_isSome b0 b1 b2 k0 k1 k2
    exact ⟨b0, b1, b2, k0, k1, k2, s, by simp [outPixels, hs]⟩
  | succ p ih =>
    intro k l kl hl hkl hp
    obtain ⟨k, rfl⟩ : ∃ j, k = j + 1 := ⟨k - 1, by omega⟩
    obtain ⟨b0, b1, b2, b3, rest, rfl, hr⟩ := four_chunk k l hl
    obtain ⟨k0, k1, k2, k3, krest, rfl, hkr⟩ := four_chunk k kl hkl
    obtain ⟨s, hs⟩ := body_isSome b0 b1 b2 k0 k1 k2
    obtain ⟨c0, c1, c2, j0, j1, j2, t, h⟩ := ih k rest krest hr hkr (by omega)
    refine ⟨c0, c1, c2, j0, j1, j2, t, ?_⟩
    have e : 4 * (p + 1) = 4 * p + 1 + 1 + 1 + 1 := by omega
    simp only [e, outPixels, hs]
    simpa [Nat.add_assoc] using h

/-! ## Lemmas on the round trip -/

theorem sourceOver_light (c a : Nat) :
    sourceOver 127 255 c a = sourceOver 127 0 c a + (255 - a) := by
  unfold sourceOver
  generalize c * a = P
  omega

theorem sourceOver_light_le (c a : Nat) (hc : c ≤ 255) (ha : a ≤ 255) :
    sourceOver 127 255 c a ≤ 255 := by
  unfold sourceOver
  have : c * a ≤ 255 * a := Nat.mul_le_mul_right a hc
  generalize c * a = P at *
  omega

/-- The recovered channel against the source channel, scaled by alpha. -/
theorem colour_roundtrip (c a : Nat) (hc : c ≤ 255) (ha : a ≤ 255) (hpos : 0 < a) :
    (a : Int) * |colour (sourceOver 127 255 c a) a - c| ≤ a + 126 := by
  have hl := sourceOver_light c a
  have hd1 : 255 * sourceOver 127 0 c a ≤ c * a + 127 := by
    unfold sourceOver; generalize c * a = P; omega
  have hd2 : c * a + 127 < 255 * sourceOver 127 0 c a + 255 := by
    unfold sourceOver; generalize c * a = P; omega
  generalize sourceOver 127 0 c a = D at *
  have hnum : (((sourceOver 127 255 c a : Nat) : Int) + a - 255) * 255 = (D : Int) * 255 := by
    rw [hl]; push_cast; omega
  unfold colour
  rw [hnum, Int.tdiv_eq_ediv (by positivity) (by positivity)]
  have hapos : (0 : Int) < a := by exact_mod_cast hpos
  have hq0 : 0 ≤ (D : Int) * 255 / a := Int.ediv_nonneg (by positivity) (by positivity)
  have hq1 : (D : Int) * 255 / a * a ≤ D * 255 := Int.ediv_mul_le _ (by omega)
  have hq2 : (D : Int) * 255 < (D * 255 / a + 1) * a := Int.lt_ediv_add_one_mul_self _ hapos
  have hd1' : (255 : Int) * D ≤ c * a + 127 := by exact_mod_cast hd1
  have hd2' : (c : Int) * a + 127 < 255 * D + 255 := by exact_mod_cast hd2
  have hc' : (c : Int) ≤ 255 := by exact_mod_cast hc
  rw [clamp_of_nonneg _ hq0]
  generalize (D : Int) * 255 / a = q at *
  have hca : (c : Int) * a ≤ 255 * a := by nlinarith
  have key1 : (a : Int) * (min 255 q - c) ≤ a + 126 := by
    rcases le_total q 255 with h | h
    · rw [min_eq_right h]; nlinarith
    · rw [min_eq_left h]; nlinarith
  have key2 : (a : Int) * (c - min 255 q) ≤ a + 126 := by
    rcases le_total q 255 with h | h
    · rw [min_eq_right h]; nlinarith
    · rw [min_eq_left h]; nlinarith
  rcases abs_choice (min 255 q - (c : Int)) with h | h
  · rw [h]; exact key1
  · rw [h]; linarith

/-- On composites of one colour and one alpha the estimate is that alpha. -/
theorem alphaEstimate_roundtrip (R G B A : Nat) (hR : R ≤ 255) (hG : G ≤ 255) (hB : B ≤ 255)
    (hA : A ≤ 255) :
    alphaEstimate (sourceOver 127 255 B A : Nat) (sourceOver 127 255 G A : Nat)
      (sourceOver 127 255 R A : Nat) (sourceOver 127 0 B A : Nat) (sourceOver 127 0 G A : Nat)
      (sourceOver 127 0 R A : Nat) = A := by
  rw [alphaEstimate_eq _ _ _ _ _ _ (sourceOver_light_le B A hB hA)
    (sourceOver_light_le G A hG hA) (sourceOver_light_le R A hR hA)]
  rw [sourceOver_light B A, sourceOver_light G A, sourceOver_light R A]
  push_cast
  omega

/-! ## The claims about `ProcessAlpha` -/

/-- C1. A pixel whose light-background bytes equal its dark-background bytes in
all three channels comes out as `(R, G, B, 255)`: the values stored are exactly
the observed `r`, `g`, `b` (read in the order `b`, `g`, `r`) and `255`, and the
bytes one iteration leaves in the buffer are those values unchanged, whatever
the fourth byte of either pixel was. -/
theorem identical_observations_give_alpha_255 (b g r x y : Nat)
    (hb : b ≤ 255) (hg : g ≤ 255) (hr : r ≤ 255) :
    ProcessAlpha.body b g r b g r = some ⟨r, g, b, 255⟩ ∧
      ProcessAlpha.iter [b, g, r, x] [b, g, r, y] 0 = some [r, g, b, 255] := by
  refine ⟨body_same b g r hb hg hr, ?_⟩
  rw [iter_pixel, body_same b g r hb hg hr]
  simp [toByte_natCast, hb, hg, hr]
  decide

/-- C1 at the pixel `(b, g, r) = (10, 20, 30)`. -/
theorem identical_observations_give_alpha_255_witness :
    ProcessAlpha.body 10 20 30 10 20 30 = some ⟨30, 20, 10, 255⟩ ∧
      ProcessAlpha.iter [10, 20, 30, 77] [10, 20, 30, 0] 0 = some [30, 20, 10, 255] :=
  identical_observations_give_alpha_255 10 20 30 77 0 (by decide) (by decide) (by decide)

/-- C2, as the specification states it, fails: for the source colour
`(100, 100, 100)` with alpha `1` the recovered colour is not within 1 of the
source, whether the composites are rounded to nearest, down or up. -/
theorem round_trip_loses_colour_at_low_alpha :
    ¬ RoundTripWithinOne 127 100 100 100 1 ∧ ¬ RoundTripWithinOne 0 100 100 100 1 ∧
      ¬ RoundTripWithinOne 254 100 100 100 1 := by
  have e1 : ProcessAlpha.body (sourceOver 127 255 100 1) (sourceOver 127 255 100 1)
      (sourceOver 127 255 100 1) (sourceOver 127 0 100 1) (sourceOver 127 0 100 1)
      (sourceOver 127 0 100 1) = some ⟨0, 0, 0, 1⟩ := by decide
  have e2 : ProcessAlpha.body (sourceOver 0 255 100 1) (sourceOver 0 255 100 1)
      (sourceOver 0 255 100 1) (sourceOver 0 0 100 1) (sourceOver 0 0 100 1)
      (sourceOver 0 0 100 1) = some ⟨0, 0, 0, 1⟩ := by decide
  have e3 : ProcessAlpha.body (sourceOver 254 255 100 1) (sourceOver 254 255 100 1)
      (sourceOver 254 255 100 1) (sourceOver 254 0 100 1) (sourceOver 254 0 100 1)
      (sourceOver 254 0 100 1) = some ⟨255, 255, 255, 1⟩ := by decide
  refine ⟨?_, ?_, ?_⟩
  · rintro ⟨s, hs, -, h⟩
    rw [e1] at hs
    obtain rfl := Option.some.inj hs
    have := (h (by decide)).1
    norm_num at this
  · rintro ⟨s, hs, -, h⟩
    rw [e2] at hs
    obtain rfl := Option.some.inj hs
    have := (h (by decide)).1
    norm_num at this
  · rintro ⟨s, hs, -, h⟩
    rw [e3] at hs
    obtain rfl := Option.some.inj hs
    have := (h (by decide)).1
    norm_num at this

/-- C2, amended. For every source colour `(R, G, B)` and alpha `A` in
`0 .. 255`, composited over white and over black and rounded to nearest, the
loop body returns alpha exactly `A`; for `A > 0` each recovered channel `c`
satisfies `A * |c - C| ≤ A + 126`; and for `A ≥ 127` each recovered channel is
within 1 of the source channel. -/
theorem round_trip_recovers_alpha_and_bounds_colour (R G B A : Nat)
    (hR : R ≤ 255) (hG : G ≤ 255) (hB : B ≤ 255) (hA : A ≤ 255) :
    ∃ s, ProcessAlpha.body (sourceOver 127 255 B A) (sourceOver 127 255 G A)
        (sourceOver 127 255 R A) (sourceOver 127 0 B A) (sourceOver 127 0 G A)
        (sourceOver 127 0 R A) = some s ∧
      s.s3 = A ∧
      (0 < A → (A : Int) * |s.s0 - (R : Int)| ≤ A + 126 ∧
        (A : Int) * |s.s1 - (G : Int)| ≤ A + 126 ∧ (A : Int) * |s.s2 - (B : Int)| ≤ A + 126) ∧
      (127 ≤ A → |s.s0 - (R : Int)| ≤ 1 ∧ |s.s1 - (G : Int)| ≤ 1 ∧ |s.s2 - (B : Int)| ≤ 1) := by
  have he := alphaEstimate_roundtrip R G B A hR hG hB hA
  have hle : ¬ ((A : Int) > 255) := by omega
  have within : ∀ c : Nat, c ≤ 255 → 127 ≤ A →
      |colour (sourceOver 127 255 c A) A - (c : Int)| ≤ 1 := by
    intro c hc h127
    have hb := colour_roundtrip c A hc hA (by omega)
    by_contra hcon
    have h2 : (2 : Int) ≤ |colour (sourceOver 127 255 c A) A - (c : Int)| := by omega
    have hA' : (127 : Int) ≤ A := by exact_mod_cast h127
    nlinarith
  rw [body_eq, he]
  by_cases h0 : A = 0
  · subst h0
    exact ⟨_, by simp; rfl, rfl, fun h => absurd h (by decide), fun h => absurd h (by decide)⟩
  · have hne : ¬ ((A : Int) = 0) := by omega
    rw [if_neg hne]
    refine ⟨_, rfl, ?_, fun hpos => ?_, fun h127 => ?_⟩
    · simp only [alphaClamped, he, if_neg hle]
    · simp only [alphaClamped, he, if_neg hle]
      exact ⟨colour_roundtrip R A hR hA hpos, colour_roundtrip G A hG hA hpos,
        colour_roundtrip B A hB hA hpos⟩
    · simp only [alphaClamped, he, if_neg hle]
      exact ⟨within R hR h127, within G hG h127, within B hB h127⟩

/-- C2 amended, at the half-transparent red `(R, G, B) = (255, 0, 0)`,
`A = 128`. -/
theorem round_trip_recovers_alpha_and_bounds_colour_witness :
    ∃ s, ProcessAlpha.body (sourceOver 127 255 0 128) (sourceOver 127 255 0 128)
        (sourceOver 127 255 255 128) (sourceOver 127 0 0 128) (sourceOver 127 0 0 128)
        (sourceOver 127 0 255 128) = some s ∧
      s.s3 = (128 : Nat) ∧
      (0 < 128 → ((128 : Nat) : Int) * |s.s0 - ((255 : Nat) : Int)| ≤ (128 : Nat) + 126 ∧
        ((128 : Nat) : Int) * |s.s1 - ((0 : Nat) : Int)| ≤ (128 : Nat) + 126 ∧
        ((128 : Nat) : Int) * |s.s2 - ((0 : Nat) : Int)| ≤ (128 : Nat) + 126) ∧
      (127 ≤ 128 → |s.s0 - ((255 : Nat) : Int)| ≤ 1 ∧ |s.s1 - ((0 : Nat) : Int)| ≤ 1 ∧
        |s.s2 - ((0 : Nat) : Int)| ≤ 1) :=
  round_trip_recovers_alpha_and_bounds_colour 255 0 0 128 (by decide) (by decide) (by decide)
    (by decide)

/-- C3. For six arbitrary observed bytes the body succeeds and each of the four
values it stores lies in `0 .. 255` before the store, so the conversion to
`uint8_t` leaves every one of them unchanged. -/
theorem stored_values_within_byte_range (b0 b1 b2 k0 k1 k2 : Nat)
    (h0 : b0 ≤ 255) (h1 : b1 ≤ 255) (h2 : b2 ≤ 255)
    (_j0 : k0 ≤ 255) (_j1 : k1 ≤ 255) (_j2 : k2 ≤ 255) :
    ∃ s, ProcessAlpha.body b0 b1 b2 k0 k1 k2 = some s ∧
      (0 ≤ s.s0 ∧ s.s0 ≤ 255) ∧ (0 ≤ s.s1 ∧ s.s1 ≤ 255) ∧
      (0 ≤ s.s2 ∧ s.s2 ≤ 255) ∧ (0 ≤ s.s3 ∧ s.s3 ≤ 255) ∧
      (toByte s.s0 : Int) = s.s0 ∧ (toByte s.s1 : Int) = s.s1 ∧
      (toByte s.s2 : Int) = s.s2 ∧ (toByte s.s3 : Int) = s.s3 := by
  rw [body_eq]
  split_ifs with h
  · exact ⟨_, rfl, by decide⟩
  · have ha := alphaClamped_range b0 b1 b2 k0 k1 k2 h0 h1 h2
    refine ⟨_, rfl, clamp_range _, clamp_range _, clamp_range _, ha, ?_, ?_, ?_, ?_⟩
    · exact toByte_of_range _ (clamp_range _).1 (clamp_range _).2
    · exact toByte_of_range _ (clamp_range _).1 (clamp_range _).2
    · exact toByte_of_range _ (clamp_range _).1 (clamp_range _).2
    · exact toByte_of_range _ ha.1 ha.2

/-- C3 at the inconsistent pair light `(0, 0, 0)`, dark `(255, 255, 255)`. -/
theorem stored_values_within_byte_range_witness :
    ∃ s, ProcessAlpha.body 0 0 0 255 255 255 = some s ∧
      (0 ≤ s.s0 ∧ s.s0 ≤ 255) ∧ (0 ≤ s.s1 ∧ s.s1 ≤ 255) ∧
      (0 ≤ s.s2 ∧ s.s2 ≤ 255) ∧ (0 ≤ s.s3 ∧ s.s3 ≤ 255) ∧
      (toByte s.s0 : Int) = s.s0 ∧ (toByte s.s1 : Int) = s.s1 ∧
      (toByte s.s2 : Int) = s.s2 ∧ (toByte s.s3 : Int) = s.s3 :=
  stored_values_within_byte_range 0 0 0 255 255 255 (by decide) (by decide) (by decide)
    (by decide) (by decide) (by decide)

/-- C4, as the specification states it, fails: at light `(B, G, R) =
(128, 128, 255)` and dark `(0, 0, 128)` the alpha is 127 and the stored red is
255, while `(dark + a - 255) * 255 / a` on the dark red 128, clamped, is 0,
with truncating and with floor division alike. -/
theorem colour_is_not_computed_from_dark_channel :
    ∃ s, ProcessAlpha.body 128 128 255 0 0 128 = some s ∧ 0 < s.s3 ∧
      s.s0 ≠ clamp (Int.tdiv (((128 : Int) + s.s3 - 255) * 255) s.s3) ∧
      s.s0 ≠ clamp ((((128 : Int) + s.s3 - 255) * 255) / s.s3) :=
  ⟨⟨255, 0, 0, 127⟩, by decide, by decide, by decide, by decide⟩

/-- C4, amended. For every pixel whose reconstructed alpha `a` is greater than
0, each colour channel stored equals `(light + a - 255) * 255 / a`, computed
from the light-background observation of that channel and the clamped alpha,
with truncating division, then clamped to `0 .. 255`. -/
theorem colour_is_computed_from_light_channel (b0 b1 b2 k0 k1 k2 : Nat) :
    ∃ s, ProcessAlpha.body b0 b1 b2 k0 k1 k2 = some s ∧
      (0 < s.s3 →
        s.s0 = clamp (Int.tdiv (((b2 : Int) + s.s3 - 255) * 255) s.s3) ∧
        s.s1 = clamp (Int.tdiv (((b1 : Int) + s.s3 - 255) * 255) s.s3) ∧
        s.s2 = clamp (Int.tdiv (((b0 : Int) + s.s3 - 255) * 255) s.s3)) := by
  rw [body_eq]
  split_ifs with h
  · exact ⟨_, rfl, fun h => absurd h (by decide)⟩
  · exact ⟨_, rfl, fun _ => ⟨rfl, rfl, rfl⟩⟩

/-- C4 amended, at light `(128, 128, 255)` and dark `(0, 0, 128)`. -/
theorem colour_is_computed_from_light_channel_witness :
    ∃ s, ProcessAlpha.body 128 128 255 0 0 128 = some s ∧
      (0 < s.s3 →
        s.s0 = clamp (Int.tdiv ((((255 : Nat) : Int) + s.s3 - 255) * 255) s.s3) ∧
        s.s1 = clamp (Int.tdiv ((((128 : Nat) : Int) + s.s3 - 255) * 255) s.s3) ∧
        s.s2 = clamp (Int.tdiv ((((128 : Nat) : Int) + s.s3 - 255) * 255) s.s3)) :=
  colour_is_computed_from_light_channel 128 128 255 0 0 128

/-- C5. The alpha stored is `min 255 (S / 3)` where `S` is the sum over the
three channels of `255 - (light - dark)`; it lies in `0 .. 255` and is stored
unchanged; and when it is not zero it is the divisor of the three colour
divisions, none of which faults. -/
theorem alpha_is_clamped_average (b0 b1 b2 k0 k1 k2 : Nat)
    (h0 : b0 ≤ 255) (h1 : b1 ≤ 255) (h2 : b2 ≤ 255) :
    ∃ s, ProcessAlpha.body b0 b1 b2 k0 k1 k2 = some s ∧
      s.s3 = min 255 (((255 - ((b0 : Int) - k0)) + (255 - ((b1 : Int) - k1)) +
        (255 - ((b2 : Int) - k2))) / 3) ∧
      0 ≤ s.s3 ∧ s.s3 ≤ 255 ∧ (toByte s.s3 : Int) = s.s3 ∧
      (s.s3 ≠ 0 →
        (∃ q, cdiv (((b2 : Int) + s.s3 - 255) * 255) s.s3 = some q ∧ s.s0 = clamp q) ∧
        (∃ q, cdiv (((b1 : Int) + s.s3 - 255) * 255) s.s3 = some q ∧ s.s1 = clamp q) ∧
        (∃ q, cdiv (((b0 : Int) + s.s3 - 255) * 255) s.s3 = some q ∧ s.s2 = clamp q)) := by
  have he := alphaEstimate_eq b0 b1 b2 k0 k1 k2 h0 h1 h2
  have ha := alphaClamped_range b0 b1 b2 k0 k1 k2 h0 h1 h2
  rw [body_eq]
  split_ifs with h
  · refine ⟨_, rfl, ?_, by decide, by decide, by decide, fun h => absurd rfl h⟩
    rw [he] at h
    show (0 : Int) = _
    omega
  · refine ⟨_, rfl, ?_, ha.1, ha.2, toByte_of_range _ ha.1 ha.2, fun hne => ?_⟩
    · show alphaClamped _ _ _ _ _ _ = _
      unfold alphaClamped
      rw [he]
      split_ifs <;> omega
    · simp only [cdiv, if_neg hne]
      exact ⟨⟨_, rfl, rfl⟩, ⟨_, rfl, rfl⟩, ⟨_, rfl, rfl⟩⟩

/-- C5 at light `(0, 0, 0)`, dark `(255, 255, 255)`, where `S / 3 = 510`. -/
theorem alpha_is_clamped_average_witness :
    ∃ s, ProcessAlpha.body 0 0 0 255 255 255 = some s ∧
      s.s3 = min 255 (((255 - (((0 : Nat) : Int) - (255 : Nat))) +
        (255 - (((0 : Nat) : Int) - (255 : Nat))) +
        (255 - (((0 : Nat) : Int) - (255 : Nat)))) / 3) ∧
      0 ≤ s.s3 ∧ s.s3 ≤ 255 ∧ (toByte s.s3 : Int) = s.s3 ∧
      (s.s3 ≠ 0 →
        (∃ q, cdiv ((((0 : Nat) : Int) + s.s3 - 255) * 255) s.s3 = some q ∧ s.s0 = clamp q) ∧
        (∃ q, cdiv ((((0 : Nat) : Int) + s.s3 - 255) * 255) s.s3 = some q ∧ s.s1 = clamp q) ∧
        (∃ q, cdiv ((((0 : Nat) : Int) + s.s3 - 255) * 255) s.s3 = some q ∧ s.s2 = clamp q)) :=
  alpha_is_clamped_average 0 0 0 255 255 255 (by decide) (by decide) (by decide)

/-- C6. When the averaged alpha estimate of a pixel is 0 the body stores
`(0, 0, 0, 0)` without a fault, hence without a division by the zero alpha, and
one iteration leaves the four bytes `0, 0, 0, 0` whatever the fourth input byte
of either pixel was. -/
theorem zero_alpha_gives_transparent_black (b0 b1 b2 k0 k1 k2 x y : Nat)
    (h : alphaEstimate b0 b1 b2 k0 k1 k2 = 0) :
    ProcessAlpha.body b0 b1 b2 k0 k1 k2 = some ⟨0, 0, 0, 0⟩ ∧
      ProcessAlpha.iter [b0, b1, b2, x] [k0, k1, k2, y] 0 = some [0, 0, 0, 0] := by
  have hb : ProcessAlpha.body b0 b1 b2 k0 k1 k2 = some ⟨0, 0, 0, 0⟩ := by
    rw [body_eq, if_pos h]
  refine ⟨hb, ?_⟩
  rw [iter_pixel, hb]
  decide

/-- C6 at light `(255, 255, 255)`, dark `(0, 0, 0)`: the estimate is 0 and the
output is `(0, 0, 0, 0)`. -/
theorem zero_alpha_gives_transparent_black_witness :
    alphaEstimate (255 : Nat) (255 : Nat) (255 : Nat) (0 : Nat) (0 : Nat) (0 : Nat) = 0 ∧
      ProcessAlpha.body 255 255 255 0 0 0 = some ⟨0, 0, 0, 0⟩ ∧
      ProcessAlpha.iter [255, 255, 255, 200] [0, 0, 0, 9] 0 = some [0, 0, 0, 0] :=
  ⟨by decide, zero_alpha_gives_transparent_black 255 255 255 0 0 0 200 9 (by decide)⟩

/-- C7. On the 2x1 region with light pixels `(0, 0, 255)`, `(128, 128, 255)` and
dark pixels `(0, 0, 255)`, `(0, 0, 128)` in `(B, G, R)` order, and any fourth
bytes, `ProcessAlpha` returns pixel 0 `= (255, 0, 0, 255)` and pixel 1
`= (255, 0, 0, a)` with `a = 127`, which is within 1 of 128. -/
theorem end_to_end_two_pixel_region (w fuel x0 x1 y0 y1 : Nat)
    (hw : 4 ≤ w) (hfuel : 2 ≤ fuel) :
    ∃ a, ProcessAlpha w fuel [0, 0, 255, x0, 128, 128, 255, x1]
        [0, 0, 255, y0, 0, 0, 128, y1] 8 = some [255, 0, 0, 255, 255, 0, 0, a] ∧
      a = 127 ∧ 128 - 1 ≤ a ∧ a ≤ 128 + 1 := by
  have hsize : 4 * 2 < 2 ^ w :=
    Nat.lt_of_lt_of_le (by decide) (Nat.pow_le_pow_right (by decide) hw)
  have hl := loop_whole w 2 fuel [0, 0, 255, x0, 128, 128, 255, x1]
    [0, 0, 255, y0, 0, 0, 128, y1] rfl rfl hsize hfuel
  have e0 : ProcessAlpha.body 0 0 255 0 0 255 = some ⟨255, 0, 0, 255⟩ := by decide
  have e1 : ProcessAlpha.body 128 128 255 0 0 128 = some ⟨255, 0, 0, 127⟩ := by decide
  refine ⟨127, ?_, rfl, by decide, by decide⟩
  unfold ProcessAlpha
  rw [show (8 : Nat) = 4 * 2 from rfl, hl]
  simp only [outPixels, e0, e1, Option.map_some']
  decide

/-- C7 with a 64-bit `size_t`, fuel for two iterations and fourth bytes 255. -/
theorem end_to_end_two_pixel_region_witness :
    ∃ a, ProcessAlpha 64 2 [0, 0, 255, 255, 128, 128, 255, 255]
        [0, 0, 255, 255, 0, 0, 128, 255] 8 = some [255, 0, 0, 255, 255, 0, 0, a] ∧
      a = 127 ∧ 128 - 1 ≤ a ∧ a ≤ 128 + 1 :=
  end_to_end_two_pixel_region 64 2 255 255 255 255 (by decide) (by decide)

/-- C8. For two buffers of `size = width * height * 4` bytes (a size that fits
`size_t`) and fuel for at least `width * height` iterations, the loop ends
after exactly `width * height` iterations without a fault, so that every read
and every write was inside the buffers; the resulting buffer has `size` bytes;
and pixel `p` of the result is the reconstruction of pixel `p` of the two
inputs, for every `p < width * height`. -/
theorem ProcessAlpha_visits_each_pixel_once (w width height fuel : Nat)
    (buffer blackBuffer : List Nat) (_hw : 0 < width) (_hh : 0 < height)
    (hb : buffer.length = width * height * 4)
    (hk : blackBuffer.length = width * height * 4)
    (hsize : width * height * 4 < 2 ^ w) (hfuel : width * height ≤ fuel) :
    ∃ out,
      ProcessAlpha.loop w blackBuffer (width * height * 4) fuel 0 buffer 0 =
        some (out, width * height) ∧
      ProcessAlpha w fuel buffer blackBuffer (width * height * 4) = some out ∧
      out.length = width * height * 4 ∧
      ∀ p, p < width * height → PixelReconstructed buffer blackBuffer out p := by
  rw [Nat.mul_comm (width * height) 4] at hb hk hsize ⊢
  have hl := loop_whole w (width * height) fuel buffer blackBuffer hb hk hsize hfuel
  refine ⟨outPixels buffer blackBuffer, hl, ?_, ?_, ?_⟩
  · unfold ProcessAlpha
    rw [hl]
    rfl
  · exact outPixels_length (width * height) buffer blackBuffer hb hk
  · intro p hp
    exact outPixels_pixel p (width * height) buffer blackBuffer hb hk hp

/-- C8 on a 2x1 region with a 64-bit `size_t`. -/
theorem ProcessAlpha_visits_each_pixel_once_witness :
    ∃ out,
      ProcessAlpha.loop 64 [0, 0, 255, 0, 0, 0, 128, 0] (2 * 1 * 4) 2 0
        [0, 0, 255, 0, 128, 128, 255, 0] 0 = some (out, 2 * 1) ∧
      ProcessAlpha 64 2 [0, 0, 255, 0, 128, 128, 255, 0] [0, 0, 255, 0, 0, 0, 128, 0]
        (2 * 1 * 4) = some out ∧
      out.length = 2 * 1 * 4 ∧
      ∀ p, p < 2 * 1 →
        PixelReconstructed [0, 0, 255, 0, 128, 128, 255, 0] [0, 0, 255, 0, 0, 0, 128, 0] out p :=
  ProcessAlpha_visits_each_pixel_once 64 2 1 2 [0, 0, 255, 0, 128, 128, 255, 0]
    [0, 0, 255, 0, 0, 0, 128, 0] (by decide) (by decide) (by decide) (by decide) (by decide)
    (by decide)

/-- C10. When the difference light minus dark is the same `d` in all three
channels, `0 ≤ d ≤ 254`, the body stores alpha `255 - d` and each colour
channel `min 255 (dark * 255 / (255 - d))`; the quotient the code computes from
the light channel is not negative, so the lower clamp is not taken. -/
theorem consistent_observations_divide_dark_by_alpha (k0 k1 k2 d : Nat) (hd : d ≤ 254)
    (h0 : k0 + d ≤ 255) (h1 : k1 + d ≤ 255) (h2 : k2 + d ≤ 255) :
    ProcessAlpha.body (k0 + d) (k1 + d) (k2 + d) k0 k1 k2 =
      some ⟨min 255 ((k2 : Int) * 255 / (255 - d)), min 255 ((k1 : Int) * 255 / (255 - d)),
        min 255 ((k0 : Int) * 255 / (255 - d)), 255 - d⟩ ∧
    0 ≤ Int.tdiv ((((k2 + d : Nat) : Int) + (255 - d) - 255) * 255) (255 - d) ∧
    0 ≤ Int.tdiv ((((k1 + d : Nat) : Int) + (255 - d) - 255) * 255) (255 - d) ∧
    0 ≤ Int.tdiv ((((k0 + d : Nat) : Int) + (255 - d) - 255) * 255) (255 - d) := by
  have he : alphaEstimate (k0 + d : Nat) (k1 + d : Nat) (k2 + d : Nat) k0 k1 k2 = 255 - d := by
    rw [alphaEstimate_eq _ _ _ _ _ _ h0 h1 h2]; omega
  have ht : ∀ k : Nat, Int.tdiv ((((k + d : Nat) : Int) + (255 - d) - 255) * 255) (255 - d)
      = (k : Int) * 255 / (255 - d) := by
    intro k
    have : (((k + d : Nat) : Int) + (255 - d) - 255) * 255 = (k : Int) * 255 := by
      push_cast; ring
    rw [this]
    apply Int.tdiv_eq_ediv <;> omega
  have hn : ∀ k : Nat, 0 ≤ (k : Int) * 255 / (255 - d) := by
    intro k
    apply Int.ediv_nonneg <;> omega
  have hc : ∀ k : Nat, colour ((k + d : Nat) : Int) (255 - d)
      = min 255 ((k : Int) * 255 / (255 - d)) := by
    intro k
    unfold colour
    rw [ht k, clamp_of_nonneg _ (hn k)]
  refine ⟨?_, ?_, ?_, ?_⟩
  · rw [body_eq, he]
    have hne : ¬ ((255 : Int) - d = 0) := by omega
    have hle : ¬ ((255 : Int) - d > 255) := by omega
    simp only [if_neg hne, alphaClamped, he, if_neg hle, hc]
  · rw [ht]; exact hn k2
  · rw [ht]; exact hn k1
  · rw [ht]; exact hn k0

/-- C10 at dark `(0, 0, 128)` and `d = 127`. -/
theorem consistent_observations_divide_dark_by_alpha_witness :
    ProcessAlpha.body (0 + 127) (0 + 127) (128 + 127) 0 0 128 =
      some ⟨min 255 (((128 : Nat) : Int) * 255 / (255 - (127 : Nat))),
        min 255 (((0 : Nat) : Int) * 255 / (255 - (127 : Nat))),
        min 255 (((0 : Nat) : Int) * 255 / (255 - (127 : Nat))), 255 - (127 : Nat)⟩ ∧
    0 ≤ Int.tdiv ((((128 + 127 : Nat) : Int) + (255 - (127 : Nat)) - 255) * 255)
      (255 - (127 : Nat)) ∧
    0 ≤ Int.tdiv ((((0 + 127 : Nat) : Int) + (255 - (127 : Nat)) - 255) * 255)
      (255 - (127 : Nat)) ∧
    0 ≤ Int.tdiv ((((0 + 127 : Nat) : Int) + (255 - (127 : Nat)) - 255) * 255)
      (255 - (127 : Nat)) :=
  consistent_observations_divide_dark_by_alpha 0 0 128 127 (by decide) (by decide) (by decide)
    (by decide)

/-! ## The claim about the capture sequence -/

/-- C9. The collaborator actions of the timer handler are exactly: flush,
capture into the light bitmap, set the background to dark and redraw, flush,
capture into the dark bitmap, destroy the surface. The surface starts with the
light background and unflushed, and every capture follows a flush with no
background change in between. In the session `ProcessAlpha` is called once, and
both captures are among the calls made before it. -/
theorem timer_handler_trace :
    collaboratorTrace Surface.initial (ShieldWndProc true .WM_TIMER).1 =
      [.flush, .capture (some .white), .setBackgroundAndRedraw .BLACK_BRUSH, .flush,
        .capture (some .black), .destroySurface] ∧
    (∀ created, (ShieldWndProc created .WM_TIMER).1 = (ShieldWndProc true .WM_TIMER).1) ∧
    Surface.initial.background = Brush.WHITE_BRUSH ∧
    flushedBeforeCapture false
      (collaboratorTrace Surface.initial (ShieldWndProc true .WM_TIMER).1) = true ∧
    session.count Call.ProcessAlpha = 1 ∧
    Call.BitBlt .whiteCtx ∈ session.takeWhile (fun c => c ≠ Call.ProcessAlpha) ∧
    Call.BitBlt .blackCtx ∈ session.takeWhile (fun c => c ≠ Call.ProcessAlpha) := by
  refine ⟨by decide, ?_, rfl, by decide, by decide, by decide, by decide⟩
  intro created
  cases created <;> rfl

end Clearshot
